import Mathlib

/-!
Shallow embedding of the rusterize software rasterizer core, with proofs
about its clipper, rasterizers, framebuffer, texture sampler, camera,
projection matrix, scene model and mesh loader.

Machine floats (`f32`) are embedded as exact rationals `ℚ`: every algorithm
verified here is a piecewise-rational function of its inputs, so `ℚ` captures
the branch structure and the exact arithmetic of the source.  Machine `u32`
color words are embedded as `ℕ`.  Flat color/depth slabs indexed by
`y * width + x` are embedded as functions from the index type.
-/

namespace Rusterize

/-- Embedding of `f32::EPSILON` (2⁻²³), the degeneracy threshold used by the
rasterizers. -/
def epsF : ℚ := 1 / 2 ^ 23

/-- Embedding of `f32::consts::PI` (the IEEE-754 single nearest to π,
13176795 · 2⁻²²). -/
def piF : ℚ := 13176795 / 4194304

/-- Embedding of `f32::consts::TAU`; in `f32`, `TAU = 2 * PI` exactly. -/
def tauF : ℚ := 2 * piF

/-- Embedding of `f32::rem_euclid` for a positive modulus: `a - b * ⌊a / b⌋`. -/
def remEuclid (a b : ℚ) : ℚ := a - b * ⌊a / b⌋

/-- Embedding of `f32::clamp(lo, hi)`. -/
def ratClamp (x lo hi : ℚ) : ℚ := min (max x lo) hi

/-- Inclusive integer range `[a, b]`, the embedding of Rust's `a..=b` loops,
built from an explicit fuel so that it is structurally recursive. -/
def intRangeFuel : Nat → Int → List Int
  | 0, _ => []
  | n + 1, a => a :: intRangeFuel n (a + 1)

/-- Inclusive integer range `[a, b]` (empty when `b < a`). -/
def intRange (a b : Int) : List Int := intRangeFuel (b + 1 - a).toNat a

/-- Embedding of `Vec2` from `src/math/vec2.rs`. -/
structure Vec2 where
  x : ℚ
  y : ℚ
deriving DecidableEq

/-- Embedding of `Vec3` from `src/math/vec3.rs`. -/
structure Vec3 where
  x : ℚ
  y : ℚ
  z : ℚ
deriving DecidableEq

/-- Embedding of `Vec4` from `src/math/vec4.rs`. -/
structure Vec4 where
  x : ℚ
  y : ℚ
  z : ℚ
  w : ℚ
deriving DecidableEq

/-- Embedding of `Vec4::lerp`. -/
def Vec4.lerp (v other : Vec4) (t : ℚ) : Vec4 :=
  ⟨v.x + (other.x - v.x) * t, v.y + (other.y - v.y) * t,
   v.z + (other.z - v.z) * t, v.w + (other.w - v.w) * t⟩

/-- Modelled from the spec: the crate's `colors` module is not present under
`src/`; per the spec, unpacking an ARGB word yields float RGB channels in
`[0, 1]` (channel byte divided by 255). -/
def unpack_color (c : ℕ) : ℚ × ℚ × ℚ :=
  ((((c / 2 ^ 16) % 256 : ℕ) : ℚ) / 255,
   (((c / 2 ^ 8) % 256 : ℕ) : ℚ) / 255,
   (((c % 256 : ℕ)) : ℚ) / 255)

/-- Modelled from the spec: componentwise linear interpolation of unpacked
RGB colors (the `colors` module is not present under `src/`). -/
def lerp_color (c1 c2 : ℚ × ℚ × ℚ) (t : ℚ) : ℚ × ℚ × ℚ :=
  (c1.1 + (c2.1 - c1.1) * t,
   c1.2.1 + (c2.2.1 - c1.2.1) * t,
   c1.2.2 + (c2.2.2 - c1.2.2) * t)

/-- Conversion of a `[0,1]` float channel to a byte by truncation. -/
def toByte (q : ℚ) : ℕ := min (Int.toNat ⌊q * 255⌋) 255

/-- Modelled from the spec: packing float RGBA channels into an ARGB word
(the `colors` module is not present under `src/`). -/
def pack_color (r g b a : ℚ) : ℕ :=
  toByte a * 2 ^ 24 + toByte r * 2 ^ 16 + toByte g * 2 ^ 8 + toByte b

/-- Embedding of `ClipSpaceVertex` from `src/clipper/clip_space.rs`. -/
structure ClipSpaceVertex where
  position : Vec4
  texcoord : Vec2
  color : ℕ
deriving DecidableEq

instance : Inhabited ClipSpaceVertex :=
  ⟨⟨⟨0, 0, 0, 0⟩, ⟨0, 0⟩, 0⟩⟩

/-- Embedding of `ClipSpaceVertex::lerp`: homogeneous position and texcoord
componentwise, color through unpack/lerp/repack with alpha 1. -/
def ClipSpaceVertex.lerp (v other : ClipSpaceVertex) (t : ℚ) : ClipSpaceVertex :=
  { position := v.position.lerp other.position t
    texcoord := ⟨v.texcoord.x + (other.texcoord.x - v.texcoord.x) * t,
                 v.texcoord.y + (other.texcoord.y - v.texcoord.y) * t⟩
    color :=
      let c1 := unpack_color v.color
      let c2 := unpack_color other.color
      let c := lerp_color c1 c2 t
      pack_color c.1 c.2.1 c.2.2 1 }

/-- Embedding of `ClipPlane` from `src/clipper/clip_space.rs`. -/
inductive ClipPlane where
  | left
  | right
  | bottom
  | top
  | near
  | far
deriving DecidableEq

/-- Embedding of `ClipPlane::signed_distance`. -/
def signed_distance (plane : ClipPlane) (v : ClipSpaceVertex) : ℚ :=
  let p := v.position
  match plane with
  | .left => p.w + p.x
  | .right => p.w - p.x
  | .bottom => p.w + p.y
  | .top => p.w - p.y
  | .near => p.w + p.z
  | .far => p.w - p.z

/-- Per-edge vertex emission of the source loop body of
`ClipSpacePolygon::clip_against_plane`: the vertices pushed to `output` while
processing the directed edge from `current` to `next`. -/
def edgeEmit (plane : ClipPlane) (current next : ClipSpaceVertex) : List ClipSpaceVertex :=
  let d1 := signed_distance plane current
  let d2 := signed_distance plane next
  if 0 ≤ d1 then
    if ¬ 0 ≤ d2 then [current, current.lerp next (d1 / (d1 - d2))]
    else [current]
  else if 0 ≤ d2 then [current.lerp next (d1 / (d1 - d2))]
  else []

/-- Embedding of `ClipSpacePolygon::clip_against_plane`: an accumulator loop
over the vertex indices, pushing the emissions of each directed edge
`(vertices[i], vertices[(i+1) % len])`. -/
def clip_against_plane (vertices : List ClipSpaceVertex) (plane : ClipPlane) :
    List ClipSpaceVertex :=
  if vertices.length < 3 then []
  else
    (List.range vertices.length).foldl
      (fun out i =>
        let current := vertices.getD i default
        let next := vertices.getD ((i + 1) % vertices.length) default
        out ++ edgeEmit plane current next)
      []

/-- Plane order of `ClipSpaceClipper::new`. -/
def clipperPlanes : List ClipPlane :=
  [.left, .right, .bottom, .top, .near, .far]

/-- Embedding of the loop of `ClipSpaceClipper::clip_polygon`: apply each
plane in turn, breaking out as soon as the running polygon `is_empty`
(fewer than 3 vertices). -/
def clipPlanesLoop : List ClipPlane → List ClipSpaceVertex → List ClipSpaceVertex
  | [], result => result
  | plane :: rest, result =>
    if result.length < 3 then result
    else clipPlanesLoop rest (clip_against_plane result plane)

/-- Embedding of `ClipSpaceClipper::clip_polygon`. -/
def clip_polygon (polygon : List ClipSpaceVertex) : List ClipSpaceVertex :=
  clipPlanesLoop clipperPlanes polygon

/-- Emission table exactly as the claim words it: current when in→in; only
the intersection when in→out; the intersection when out→in; nothing when
out→out (zero distance counting as inside). -/
def claimEdgeEmit (plane : ClipPlane) (current next : ClipSpaceVertex) :
    List ClipSpaceVertex :=
  let d1 := signed_distance plane current
  let d2 := signed_distance plane next
  if 0 ≤ d1 ∧ 0 ≤ d2 then [current]
  else if 0 ≤ d1 ∧ ¬ 0 ≤ d2 then [current.lerp next (d1 / (d1 - d2))]
  else if ¬ 0 ≤ d1 ∧ 0 ≤ d2 then [current.lerp next (d1 / (d1 - d2))]
  else []

/-- Single-plane clipping as the claim describes it, with `claimEdgeEmit`
applied to every directed edge of the vertex ring. -/
def claimTableClip (vertices : List ClipSpaceVertex) (plane : ClipPlane) :
    List ClipSpaceVertex :=
  if vertices.length < 3 then []
  else
    ((List.range vertices.length).map
      (fun i =>
        claimEdgeEmit plane (vertices.getD i default)
          (vertices.getD ((i + 1) % vertices.length) default))).flatten

/-- Single-plane Sutherland-Hodgman clipping in per-edge emission form (the
amended reading: in→out emits current followed by the intersection). -/
def specSHClip (vertices : List ClipSpaceVertex) (plane : ClipPlane) :
    List ClipSpaceVertex :=
  if vertices.length < 3 then []
  else
    ((List.range vertices.length).map
      (fun i =>
        edgeEmit plane (vertices.getD i default)
          (vertices.getD ((i + 1) % vertices.length) default))).flatten

/-- Sequential application of the six planes in order Left, Right, Bottom,
Top, Near, Far, skipping the remaining planes once the running polygon has
fewer than 3 vertices, written as a fold over the plane list. -/
def specClipSequence (polygon : List ClipSpaceVertex) : List ClipSpaceVertex :=
  clipperPlanes.foldl
    (fun result plane =>
      if result.length < 3 then result else clip_against_plane result plane)
    polygon

/-- Embedding of `FrameBuffer` from `src/render/framebuffer.rs`: a color slab
and a depth slab of `width * height` entries, embedded as functions from the
flat index `y * width + x`. -/
structure FrameBuffer where
  width : ℤ
  height : ℤ
  colorBuf : ℤ → ℕ
  depthBuf : ℤ → ℚ

/-- Embedding of `FrameBuffer::set_pixel_with_depth`: bounds-checked, writes
color and depth only when `depth` strictly exceeds the stored depth. -/
def set_pixel_with_depth (fb : FrameBuffer) (x y : ℤ) (depth : ℚ) (color : ℕ) :
    FrameBuffer :=
  if 0 ≤ x ∧ x < fb.width ∧ 0 ≤ y ∧ y < fb.height then
    let idx := y * fb.width + x
    if fb.depthBuf idx < depth then
      { fb with
        depthBuf := fun i => if i = idx then depth else fb.depthBuf i
        colorBuf := fun i => if i = idx then color else fb.colorBuf i }
    else fb
  else fb

/-- Embedding of `FrameBuffer::set_pixel`: bounds-checked color write with no
depth test and no depth update. -/
def set_pixel (fb : FrameBuffer) (x y : ℤ) (color : ℕ) : FrameBuffer :=
  if 0 ≤ x ∧ x < fb.width ∧ 0 ≤ y ∧ y < fb.height then
    { fb with
      colorBuf := fun i => if i = y * fb.width + x then color else fb.colorBuf i }
  else fb

/-- Color currently stored for pixel `(x, y)`. -/
def colorAt (fb : FrameBuffer) (x y : ℤ) : ℕ := fb.colorBuf (y * fb.width + x)

/-- Depth (1/w) currently stored for pixel `(x, y)`. -/
def depthAt (fb : FrameBuffer) (x y : ℤ) : ℚ := fb.depthBuf (y * fb.width + x)

/-- Embedding of `Renderer::clear_depth`: every stored depth becomes `0`
(infinitely far, since the slab stores 1/w). -/
def clear_depth (fb : FrameBuffer) : FrameBuffer :=
  { fb with depthBuf := fun _ => 0 }

/-- Embedding of `Texture` from `src/texture.rs`: dimensions plus a flat
row-major top-left-origin ARGB pixel array, embedded as a function. -/
structure Texture where
  width : ℕ
  height : ℕ
  data : ℕ → ℕ

/-- Embedding of `Texture::sample`: wrap `u` with `rem_euclid`, V-flip then
wrap `v`, scale to texel coordinates, truncate, clamp with `min`, and index
`y * width + x`. -/
def sample (tex : Texture) (u v : ℚ) : ℕ :=
  let u' := remEuclid u 1
  let v' := remEuclid (1 - v) 1
  let x := min (Int.toNat ⌊u' * tex.width⌋) (tex.width - 1)
  let y := min (Int.toNat ⌊v' * tex.height⌋) (tex.height - 1)
  tex.data (y * tex.width + x)

/-- Embedding of `Mat4` (row-addressable 4×4 rational matrix). -/
structure Mat4 where
  r0 : Vec4
  r1 : Vec4
  r2 : Vec4
  r3 : Vec4

/-- Dot product of a matrix row with a column vector. -/
def rowDot (r v : Vec4) : ℚ := r.x * v.x + r.y * v.y + r.z * v.z + r.w * v.w

/-- Embedding of `Mul<Vec4> for Mat4` (column-vector convention). -/
def mulVec4 (m : Mat4) (v : Vec4) : Vec4 :=
  ⟨rowDot m.r0 v, rowDot m.r1 v, rowDot m.r2 v, rowDot m.r3 v⟩

/-- Embedding of `Mat4::perspective_lh`.  The `f32` call computes
`t = near * tan(fov / 2)`; since tangent is not rational, the embedding takes
`tanHalfFov = tan(fov / 2)` as the parameter, which is exact for the rows the
depth claims inspect (rows 2 and 3 do not involve `t` or `r`). -/
def perspective_lh (tanHalfFov aspect_ratio near far : ℚ) : Mat4 :=
  let t := near * tanHalfFov
  let r := t * aspect_ratio
  let a := (far + near) / (near - far)
  let b := -2 * far * near / (far - near)
  { r0 := ⟨near / r, 0, 0, 0⟩
    r1 := ⟨0, near / t, 0, 0⟩
    r2 := ⟨0, 0, a, b⟩
    r3 := ⟨0, 0, 1, 0⟩ }

/-- Embedding of `EdgeFunctionRasterizer::edge_function`:
`(b.x - a.x) * (p.y - a.y) - (b.y - a.y) * (p.x - a.x)`. -/
def edge_function (a b p : Vec3) : ℚ :=
  (b.x - a.x) * (p.y - a.y) - (b.y - a.y) * (p.x - a.x)

/-- Embedding of `EdgeFunctionRasterizer::is_top_left`:
`(dy == 0 && dx < 0) || dy < 0`. -/
def is_top_left (a b : Vec3) : Prop :=
  (b.y - a.y = 0 ∧ b.x - a.x < 0) ∨ b.y - a.y < 0

instance (a b : Vec3) : Decidable (is_top_left a b) := by
  unfold is_top_left
  exact inferInstance

/-- Top-left bias of one edge: `0` for a top-left edge, `-1` otherwise. -/
def biasOf (a b : Vec3) : ℚ := if is_top_left a b then 0 else -1

/-- Pixel-center sample point used by `rasterize_with_shader`:
`(x + 0.5, y + 0.5, 0)`. -/
def pixelCenter (x y : ℤ) : Vec3 := ⟨(x : ℚ) + 1 / 2, (y : ℚ) + 1 / 2, 0⟩

/-- Inside test of `rasterize_with_shader` at a sample point: for positive
signed area all biased edge functions must be `≥ 0`; otherwise all edge
functions minus their bias must be `≤ 0`. -/
def insideBiased (v0 v1 v2 : Vec3) (p : Vec3) : Prop :=
  let area := edge_function v0 v1 v2
  let w0 := edge_function v1 v2 p
  let w1 := edge_function v2 v0 p
  let w2 := edge_function v0 v1 p
  if 0 < area then
    0 ≤ w0 + biasOf v1 v2 ∧ 0 ≤ w1 + biasOf v2 v0 ∧ 0 ≤ w2 + biasOf v0 v1
  else
    w0 - biasOf v1 v2 ≤ 0 ∧ w1 - biasOf v2 v0 ≤ 0 ∧ w2 - biasOf v0 v1 ≤ 0

instance (v0 v1 v2 p : Vec3) : Decidable (insideBiased v0 v1 v2 p) :=
  decidable_of_iff _ (ite_prop_iff_or ..).symm

/-- Pixel `(x, y)` is covered by the edge-function pass over triangle
`(v0, v1, v2)`: it lies in the framebuffer-clipped bounding box, the triangle
survives the degeneracy bail-out (`|area| ≥ f32::EPSILON`), and the biased
inside test succeeds at the pixel center.  `set_pixel_with_depth` is invoked
exactly for the covered pixels. -/
def coveredBy (v0 v1 v2 : Vec3) (w h : ℤ) (x y : ℤ) : Prop :=
  max ⌊min (min v0.x v1.x) v2.x⌋ 0 ≤ x ∧
  x ≤ min ⌈max (max v0.x v1.x) v2.x⌉ (w - 1) ∧
  max ⌊min (min v0.y v1.y) v2.y⌋ 0 ≤ y ∧
  y ≤ min ⌈max (max v0.y v1.y) v2.y⌉ (h - 1) ∧
  epsF ≤ |edge_function v0 v1 v2| ∧
  insideBiased v0 v1 v2 (pixelCenter x y)

instance (v0 v1 v2 : Vec3) (w h x y : ℤ) : Decidable (coveredBy v0 v1 v2 w h x y) := by
  unfold coveredBy
  exact inferInstance

/-- Embedding of `ShadingMode` from `src/engine.rs`. -/
inductive ShadingMode where
  | flat
  | gouraud
  | noShading
deriving DecidableEq

/-- Embedding of the fields of `Triangle` (from `src/render/rasterizer`) that
`ScanlineRasterizer::fill_triangle` reads: the three screen-space points
(`z` stores clip-space `w`), per-vertex packed colors, and the shading mode. -/
structure Triangle where
  p0 : Vec3
  p1 : Vec3
  p2 : Vec3
  c0 : ℕ
  c1 : ℕ
  c2 : ℕ
  shadingMode : ShadingMode

/-- Modelled from the spec: `FrameBuffer::fill_scanline` is referenced by the
scanline rasterizer but absent from `src/`; per its call sites and doc
comment it fills the horizontal run `x_left..=x_right` of row `y` with a
solid color, i.e. repeated `set_pixel` writes (no depth test). -/
def fill_scanline (fb : FrameBuffer) (y x_left x_right : ℤ) (color : ℕ) :
    FrameBuffer :=
  (intRange x_left x_right).foldl (fun b x => set_pixel b x y color) fb

/-- RGB triple used by the Gouraud scanline path. -/
abbrev Rgb := ℚ × ℚ × ℚ

/-- Embedding of `ScanlineRasterizer::sort_vertices_with_colors`: three
conditional swaps ordering the vertices by ascending `y`, with the colors
swapped alongside. -/
def sort_vertices_with_colors (v0 v1 v2 : Vec3) (c0 c1 c2 : Rgb) :
    (Vec3 × Vec3 × Vec3) × (Rgb × Rgb × Rgb) :=
  let s1 := if v1.y < v0.y then ((v1, v0, v2), (c1, c0, c2)) else ((v0, v1, v2), (c0, c1, c2))
  let ((u0, u1, u2), (d0, d1, d2)) := s1
  let s2 := if u2.y < u1.y then ((u0, u2, u1), (d0, d2, d1)) else ((u0, u1, u2), (d0, d1, d2))
  let ((w0, w1, w2), (e0, e1, e2)) := s2
  if w1.y < w0.y then ((w1, w0, w2), (e1, e0, e2)) else ((w0, w1, w2), (e0, e1, e2))

/-- Embedding of `ScanlineRasterizer::sort_vertices` (no colors). -/
def sort_vertices (v0 v1 v2 : Vec3) : Vec3 × Vec3 × Vec3 :=
  let s1 := if v1.y < v0.y then (v1, v0, v2) else (v0, v1, v2)
  let (u0, u1, u2) := s1
  let s2 := if u2.y < u1.y then (u0, u2, u1) else (u0, u1, u2)
  let (w0, w1, w2) := s2
  if w1.y < w0.y then (w1, w0, w2) else (w0, w1, w2)

/-- Embedding of `ScanlineRasterizer::fill_flat_bottom_gouraud`: for each
scanline from `ceil(v0.y)` to `floor(v1.y)`, compute the two edge X
positions, interpolate colors along the edges and across the span, and write
each pixel with `set_pixel` (no depth test, no shader, no 1/w). -/
def fill_flat_bottom_gouraud (v0 v1 v2 : Vec3) (c0 c1 c2 : Rgb)
    (buffer : FrameBuffer) : FrameBuffer :=
  let height := v1.y - v0.y
  if |height| < epsF then buffer
  else
    let inv_slope_1 := (v1.x - v0.x) / height
    let inv_slope_2 := (v2.x - v0.x) / height
    (intRange ⌈v0.y⌉ ⌊v1.y⌋).foldl
      (fun b (yi : ℤ) =>
        let dy := (yi : ℚ) - v0.y
        let t := dy / height
        let x1 := v0.x + inv_slope_1 * dy
        let x2 := v0.x + inv_slope_2 * dy
        let color1 := lerp_color c0 c1 t
        let color2 := lerp_color c0 c2 t
        let lr := if x1 < x2 then (x1, x2, color1, color2) else (x2, x1, color2, color1)
        let (x_left, x_right, c_left, c_right) := lr
        let span := x_right - x_left
        (intRange ⌈x_left⌉ ⌊x_right⌋).foldl
          (fun b2 (xi : ℤ) =>
            let tx := if |span| < epsF then 0 else ((xi : ℚ) - x_left) / span
            let color := lerp_color c_left c_right tx
            set_pixel b2 xi yi (pack_color color.1 color.2.1 color.2.2 1))
          b)
      buffer

/-- Embedding of `ScanlineRasterizer::fill_flat_top_gouraud`. -/
def fill_flat_top_gouraud (v0 v1 v2 : Vec3) (c0 c1 c2 : Rgb)
    (buffer : FrameBuffer) : FrameBuffer :=
  let height := v2.y - v0.y
  if |height| < epsF then buffer
  else
    let inv_slope_1 := (v2.x - v0.x) / height
    let inv_slope_2 := (v2.x - v1.x) / height
    (intRange ⌈v0.y⌉ ⌊v2.y⌋).foldl
      (fun b (yi : ℤ) =>
        let dy := (yi : ℚ) - v0.y
        let t := dy / height
        let x1 := v0.x + inv_slope_1 * dy
        let x2 := v1.x + inv_slope_2 * dy
        let color1 := lerp_color c0 c2 t
        let color2 := lerp_color c1 c2 t
        let lr := if x1 < x2 then (x1, x2, color1, color2) else (x2, x1, color2, color1)
        let (x_left, x_right, c_left, c_right) := lr
        let span := x_right - x_left
        (intRange ⌈x_left⌉ ⌊x_right⌋).foldl
          (fun b2 (xi : ℤ) =>
            let tx := if |span| < epsF then 0 else ((xi : ℚ) - x_left) / span
            let color := lerp_color c_left c_right tx
            set_pixel b2 xi yi (pack_color color.1 color.2.1 color.2.2 1))
          b)
      buffer

/-- Embedding of `ScanlineRasterizer::fill_flat_bottom_solid`. -/
def fill_flat_bottom_solid (v0 v1 v2 : Vec3) (buffer : FrameBuffer) (color : ℕ) :
    FrameBuffer :=
  let height := v1.y - v0.y
  if |height| < epsF then buffer
  else
    let inv_slope_1 := (v1.x - v0.x) / height
    let inv_slope_2 := (v2.x - v0.x) / height
    (intRange ⌈v0.y⌉ ⌊v1.y⌋).foldl
      (fun b (yi : ℤ) =>
        let dy := (yi : ℚ) - v0.y
        let x1 := v0.x + inv_slope_1 * dy
        let x2 := v0.x + inv_slope_2 * dy
        fill_scanline b yi ⌈min x1 x2⌉ ⌊max x1 x2⌋ color)
      buffer

/-- Embedding of `ScanlineRasterizer::fill_flat_top_solid`. -/
def fill_flat_top_solid (v0 v1 v2 : Vec3) (buffer : FrameBuffer) (color : ℕ) :
    FrameBuffer :=
  let height := v2.y - v0.y
  if |height| < epsF then buffer
  else
    let inv_slope_1 := (v2.x - v0.x) / height
    let inv_slope_2 := (v2.x - v1.x) / height
    (intRange ⌈v0.y⌉ ⌊v2.y⌋).foldl
      (fun b (yi : ℤ) =>
        let dy := (yi : ℚ) - v0.y
        let x1 := v0.x + inv_slope_1 * dy
        let x2 := v1.x + inv_slope_2 * dy
        fill_scanline b yi ⌈min x1 x2⌉ ⌊max x1 x2⌋ color)
      buffer

/-- Embedding of `ScanlineRasterizer::fill_triangle` (`Rasterizer` impl in
`src/render/rasterizer/scanline.rs`): sort vertices, classify as
flat-bottom / flat-top / general, split general triangles at the middle
vertex's Y, and fill.  The `texture` argument of the source function is
never read, so it is omitted. -/
def scanline_fill_triangle (triangle : Triangle) (buffer : FrameBuffer)
    (color : ℕ) : FrameBuffer :=
  match triangle.shadingMode with
  | .gouraud =>
    let sorted := sort_vertices_with_colors triangle.p0 triangle.p1 triangle.p2
      (unpack_color triangle.c0) (unpack_color triangle.c1) (unpack_color triangle.c2)
    let ((v0, v1, v2), (c0, c1, c2)) := sorted
    if |v1.y - v2.y| < epsF then fill_flat_bottom_gouraud v0 v1 v2 c0 c1 c2 buffer
    else if |v0.y - v1.y| < epsF then fill_flat_top_gouraud v0 v1 v2 c0 c1 c2 buffer
    else
      let t := (v1.y - v0.y) / (v2.y - v0.y)
      let split_x := v0.x + (v2.x - v0.x) * t
      let split_point : Vec3 := ⟨split_x, v1.y, 0⟩
      let split_color := lerp_color c0 c2 t
      fill_flat_top_gouraud v1 split_point v2 c1 split_color c2
        (fill_flat_bottom_gouraud v0 v1 split_point c0 c1 split_color buffer)
  | _ =>
    let sorted := sort_vertices triangle.p0 triangle.p1 triangle.p2
    let (v0, v1, v2) := sorted
    if |v1.y - v2.y| < epsF then fill_flat_bottom_solid v0 v1 v2 buffer color
    else if |v0.y - v1.y| < epsF then fill_flat_top_solid v0 v1 v2 buffer color
    else
      let t := (v1.y - v0.y) / (v2.y - v0.y)
      let split_x := v0.x + (v2.x - v0.x) * t
      let split_point : Vec3 := ⟨split_x, v1.y, 0⟩
      fill_flat_top_solid v1 split_point v2
        (fill_flat_bottom_solid v0 v1 split_point buffer color) color

/-- Embedding of the default pitch clamp bound `89.0_f32.to_radians()`
(exact rational arithmetic on the embedded `PI`; the final `f32` rounding
step is abstracted). -/
def deg89 : ℚ := 89 * piF / 180

/-- Embedding of `FpsCamera` from `src/camera.rs`. -/
structure FpsCamera where
  position : Vec3
  yaw : ℚ
  pitch : ℚ
  roll : ℚ
  pitchMin : ℚ
  pitchMax : ℚ

/-- Embedding of `FpsCamera::new(Vec3::ZERO)`, the `Default` camera. -/
def defaultCamera : FpsCamera :=
  ⟨⟨0, 0, 0⟩, 0, 0, 0, -deg89, deg89⟩

/-- Embedding of `FpsCamera::rotate_yaw`: add the delta and wrap with
`rem_euclid(TAU)`. -/
def rotate_yaw (c : FpsCamera) (delta : ℚ) : FpsCamera :=
  { c with yaw := remEuclid (c.yaw + delta) tauF }

/-- Embedding of `FpsCamera::rotate_pitch`: add the delta and clamp to the
pitch limits. -/
def rotate_pitch (c : FpsCamera) (delta : ℚ) : FpsCamera :=
  { c with pitch := ratClamp (c.pitch + delta) c.pitchMin c.pitchMax }

/-- Embedding of `FpsCamera::rotate_roll`: add the delta, wrap with
`rem_euclid(TAU)`, then subtract `TAU` when the result exceeds `PI`. -/
def rotate_roll (c : FpsCamera) (delta : ℚ) : FpsCamera :=
  let r := remEuclid (c.roll + delta) tauF
  { c with roll := if piF < r then r - tauF else r }

/-- Embedding of `FpsCamera::rotate`: yaw first, then pitch. -/
def rotateCam (c : FpsCamera) (yaw_delta pitch_delta : ℚ) : FpsCamera :=
  rotate_pitch (rotate_yaw c yaw_delta) pitch_delta

/-- One camera rotation call. -/
inductive CamOp where
  | yaw (delta : ℚ)
  | pitch (delta : ℚ)
  | roll (delta : ℚ)
  | rot (yaw_delta pitch_delta : ℚ)

/-- Application of one camera rotation call. -/
def applyCamOp (c : FpsCamera) : CamOp → FpsCamera
  | .yaw d => rotate_yaw c d
  | .pitch d => rotate_pitch c d
  | .roll d => rotate_roll c d
  | .rot dy dp => rotateCam c dy dp

/-- Application of a sequence of camera rotation calls. -/
def applyCamOps (ops : List CamOp) (c : FpsCamera) : FpsCamera :=
  ops.foldl applyCamOp c

/-- Embedding of the scene fields of `Engine` from `src/engine.rs`: the
ordered model list and the name-to-index lookup (a `HashMap` embedded as an
association list with unique keys). -/
structure Engine (α : Type) where
  models : List α
  modelNames : List (String × ℕ)

/-- Lookup in the name-to-index map (`HashMap::get`). -/
def lookupName : List (String × ℕ) → String → Option ℕ
  | [], _ => none
  | p :: rest, n => if p.1 = n then some p.2 else lookupName rest n

/-- Removal of a key from the name-to-index map (`HashMap::remove`). -/
def eraseKey : List (String × ℕ) → String → List (String × ℕ)
  | [], _ => []
  | p :: rest, n => if p.1 = n then rest else p :: eraseKey rest n

/-- Embedding of `Engine::remove_model`: when the name is mapped, remove it
from the map, remove the model at its index (shifting the list), decrement
every mapped index greater than the removed one, and return the removed
model; otherwise return `None` and leave the engine unchanged.  Under the
engine invariant the index is always in range, so the `Vec::remove` panic
path cannot occur. -/
def remove_model (e : Engine α) (name : String) : Option α × Engine α :=
  match lookupName e.modelNames name with
  | none => (none, e)
  | some index =>
    let names1 := eraseKey e.modelNames name
    let names2 := names1.map (fun p => if index < p.2 then (p.1, p.2 - 1) else p)
    (e.models[index]?, ⟨e.models.eraseIdx index, names2⟩)

/-- Embedding of `Engine::model`: resolve the name through the map, then
index the model list. -/
def modelByName (e : Engine α) (name : String) : Option α :=
  (lookupName e.modelNames name).bind (fun i => e.models[i]?)

/-- Embedding of `Face` from `src/mesh.rs`. -/
structure Face where
  a : ℕ
  b : ℕ
  c : ℕ
deriving DecidableEq

/-- Embedding of `Vertex` from `src/mesh.rs`. -/
structure Vertex where
  position : Vec3
  normal : Vec3
  texel : Vec2
deriving DecidableEq

/-- Embedding of `Mesh` from `src/mesh.rs` (the local transform, always
default right after loading, is omitted). -/
structure Mesh where
  name : String
  vertices : List Vertex
  faces : List Face
deriving DecidableEq

/-- Embedding of `LoadError` from `src/mesh.rs`. -/
inductive LoadError where
  | tobjError
  | noModels
  | noVertices
  | invalidFaces
deriving DecidableEq

/-- Parsed OBJ model as produced by `tobj::load_obj` with
`triangulate: true, single_index: true`: flat attribute arrays plus a flat
index array.  The file decode itself is an external collaborator. -/
structure TobjModel where
  name : String
  positions : List ℚ
  normals : List ℚ
  texcoords : List ℚ
  indices : List ℕ

/-- Embedding of `chunks_exact(3)` over a float array. -/
def chunks3 : List ℚ → List (ℚ × ℚ × ℚ)
  | a :: b :: c :: rest => (a, b, c) :: chunks3 rest
  | _ => []

/-- Embedding of `chunks_exact(3)` over the index array, building `Face`s. -/
def chunksFace : List ℕ → List Face
  | a :: b :: c :: rest => ⟨a, b, c⟩ :: chunksFace rest
  | _ => []

/-- Vertex construction of `Mesh::load_all_from_obj`: positions chunked by
3, with normals and texcoords read at `i*3` / `i*2` when present. -/
def buildVertices (m : TobjModel) : List Vertex :=
  let hasNormals := ¬ m.normals.isEmpty
  let hasTexcoords := ¬ m.texcoords.isEmpty
  (chunks3 m.positions).enum.map
    (fun ip =>
      let i := ip.1
      let p := ip.2
      { position := ⟨p.1, p.2.1, p.2.2⟩
        normal :=
          if hasNormals then
            ⟨m.normals.getD (i * 3) 0, m.normals.getD (i * 3 + 1) 0,
             m.normals.getD (i * 3 + 2) 0⟩
          else ⟨0, 0, 0⟩
        texel :=
          if hasTexcoords then
            ⟨m.texcoords.getD (i * 2) 0, m.texcoords.getD (i * 2 + 1) 0⟩
          else ⟨0, 0⟩ })

/-- Loop body of `Mesh::load_all_from_obj`: skip models with no positions,
fail on an index count not divisible by 3, otherwise build the mesh with the
OBJ name or a generated `mesh_<i>` fallback. -/
def buildMeshes : ℕ → List TobjModel → Except LoadError (List Mesh)
  | _, [] => .ok []
  | i, m :: rest =>
    if m.positions.isEmpty then buildMeshes (i + 1) rest
    else if m.indices.length % 3 ≠ 0 then .error .invalidFaces
    else
      match buildMeshes (i + 1) rest with
      | .error e => .error e
      | .ok tail =>
        let name := if m.name = "" then "mesh_" ++ toString i else m.name
        .ok ({ name := name, vertices := buildVertices m,
               faces := chunksFace m.indices } :: tail)

/-- Embedding of `Mesh::load_all_from_obj` applied to the parsed OBJ models:
error when there are no models, build the meshes, error when every mesh was
skipped. -/
def load_all_from_obj (models : List TobjModel) : Except LoadError (List Mesh) :=
  if models.isEmpty then .error .noModels
  else
    match buildMeshes 0 models with
    | .error e => .error e
    | .ok meshes => if meshes.isEmpty then .error .noVertices else .ok meshes

lemma tauF_pos : 0 < tauF := by norm_num [tauF, piF]

lemma piF_pos : 0 < piF := by norm_num [piF]

lemma deg89_pos : 0 < deg89 := by norm_num [deg89, piF]

lemma remEuclid_nonneg (a b : ℚ) (hb : 0 < b) : 0 ≤ remEuclid a b := by
  unfold remEuclid
  have h := Int.floor_le (a / b)
  have h2 : b * ((⌊a / b⌋ : ℤ) : ℚ) ≤ b * (a / b) :=
    mul_le_mul_of_nonneg_left h hb.le
  have hba : b * (a / b) = a := by field_simp
  linarith

lemma remEuclid_lt (a b : ℚ) (hb : 0 < b) : remEuclid a b < b := by
  unfold remEuclid
  have h := Int.lt_floor_add_one (a / b)
  have h2 : b * (a / b) < b * (((⌊a / b⌋ : ℤ) : ℚ) + 1) :=
    mul_lt_mul_of_pos_left h hb
  have hba : b * (a / b) = a := by field_simp
  have h3 : b * (((⌊a / b⌋ : ℤ) : ℚ) + 1) = b * ((⌊a / b⌋ : ℤ) : ℚ) + b := by ring
  linarith

/-- Camera angle invariant: pitch inside the default clamp bounds, yaw in
`[0, TAU)`, roll in `(-PI, PI]`, and the clamp bounds still the defaults. -/
def camInvariant (c : FpsCamera) : Prop :=
  c.pitchMin ≤ c.pitch ∧ c.pitch ≤ c.pitchMax ∧
  0 ≤ c.yaw ∧ c.yaw < tauF ∧
  -piF < c.roll ∧ c.roll ≤ piF ∧
  c.pitchMin = -deg89 ∧ c.pitchMax = deg89

lemma camInvariant_applyCamOp (c : FpsCamera) (op : CamOp)
    (h : camInvariant c) : camInvariant (applyCamOp c op) := by
  obtain ⟨h1, h2, h3, h4, h5, h6, h7, h8⟩ := h
  have hmm : c.pitchMin ≤ c.pitchMax := by
    rw [h7, h8]; have := deg89_pos; linarith
  have hyaw : ∀ d, camInvariant (rotate_yaw c d) := by
    intro d
    exact ⟨h1, h2, remEuclid_nonneg _ _ tauF_pos, remEuclid_lt _ _ tauF_pos,
      h5, h6, h7, h8⟩
  have hpitch : ∀ c' : FpsCamera, camInvariant c' →
      ∀ d, camInvariant (rotate_pitch c' d) := by
    intro c' hc' d
    obtain ⟨g1, g2, g3, g4, g5, g6, g7, g8⟩ := hc'
    have hmm' : c'.pitchMin ≤ c'.pitchMax := by
      rw [g7, g8]; have := deg89_pos; linarith
    refine ⟨?_, ?_, g3, g4, g5, g6, g7, g8⟩
    · exact le_min (le_max_right _ _) hmm'
    · exact min_le_right _ _
  have hroll : ∀ d, camInvariant (rotate_roll c d) := by
    intro d
    have hr0 := remEuclid_nonneg (c.roll + d) tauF tauF_pos
    have hr1 := remEuclid_lt (c.roll + d) tauF tauF_pos
    have hpi := piF_pos
    have htau : tauF = 2 * piF := rfl
    refine ⟨h1, h2, h3, h4, ?_, ?_, h7, h8⟩ <;>
      simp only [rotate_roll] <;> split <;> rename_i hsplit <;> linarith
  cases op with
  | yaw d => exact hyaw d
  | pitch d => exact hpitch c ⟨h1, h2, h3, h4, h5, h6, h7, h8⟩ d
  | roll d => exact hroll d
  | rot dy dp => exact hpitch _ (hyaw dy) dp

lemma camInvariant_applyCamOps (ops : List CamOp) (c : FpsCamera)
    (h : camInvariant c) : camInvariant (applyCamOps ops c) := by
  induction ops generalizing c with
  | nil => exact h
  | cons op rest ih => exact ih _ (camInvariant_applyCamOp c op h)

/-- C8 counterexample: a single `rotate_roll` by `3·PI/2` from the default
camera leaves a negative roll, so the roll does not lie in `[0, 2π)` as the
claim states. -/
theorem c8_counterexample_roll_negative :
    (applyCamOps [CamOp.roll (3 * piF / 2)] defaultCamera).roll < 0 := by
  have hfloor : ⌊(0 + 3 * piF / 2) / tauF⌋ = 0 := by
    norm_num [piF, tauF]
  norm_num [applyCamOps, applyCamOp, rotate_roll, defaultCamera, remEuclid,
    List.foldl, hfloor, piF, tauF]

/-- C8 (amended): after any sequence of `rotate_yaw` / `rotate_pitch` /
`rotate_roll` / `rotate` calls with arbitrary deltas on a default camera,
the pitch lies in the default clamp bounds `[-89°, +89°]`, the yaw lies in
`[0, 2π)`, and the roll lies in `(-π, π]` (not `[0, 2π)`: `rotate_roll`
re-centers the wrapped angle around zero). -/
theorem c8_camera_angle_invariants (ops : List CamOp) :
    -deg89 ≤ (applyCamOps ops defaultCamera).pitch ∧
    (applyCamOps ops defaultCamera).pitch ≤ deg89 ∧
    0 ≤ (applyCamOps ops defaultCamera).yaw ∧
    (applyCamOps ops defaultCamera).yaw < tauF ∧
    -piF < (applyCamOps ops defaultCamera).roll ∧
    (applyCamOps ops defaultCamera).roll ≤ piF := by
  have hinit : camInvariant defaultCamera := by
    unfold camInvariant defaultCamera
    norm_num [deg89, piF, tauF]
  have h := camInvariant_applyCamOps ops defaultCamera hinit
  obtain ⟨h1, h2, h3, h4, h5, h6, h7, h8⟩ := h
  rw [h7] at h1
  rw [h8] at h2
  exact ⟨h1, h2, h3, h4, h5, h6⟩

/-- C2: evaluation of the code at a failing input.  With `near = 1`,
`far = 3` (any fov/aspect: rows 2 and 3 do not depend on them), the
left-handed perspective matrix maps the view-space point `(0,0,near,1)` to
`z/w = -5` and `(0,0,far,1)` to `z/w = -3`, not to `-1` and `+1` as the
claim states: the coefficient `a = (far+near)/(near-far)` has the wrong
sign for a left-handed depth mapping. -/
theorem c2_perspective_depth_mismapped :
    (mulVec4 (perspective_lh 1 1 1 3) ⟨0, 0, 1, 1⟩).z /
      (mulVec4 (perspective_lh 1 1 1 3) ⟨0, 0, 1, 1⟩).w = -5 ∧
    (mulVec4 (perspective_lh 1 1 1 3) ⟨0, 0, 3, 1⟩).z /
      (mulVec4 (perspective_lh 1 1 1 3) ⟨0, 0, 3, 1⟩).w = -3 ∧
    (-5 : ℚ) ≠ -1 ∧ (-3 : ℚ) ≠ 1 := by
  norm_num [perspective_lh, mulVec4, rowDot]

/-- Texture fixture: 2×2, pixel value equals its flat index. -/
def demoTexture : Texture := ⟨2, 2, fun i => i⟩

/-- C6 counterexample: on a 2×2 texture whose pixel value is its index,
`sample(0,0)` returns `pixels[0]` (the first pixel of the *top* row), not
`pixels[(H-1)·W + 0]` as the claim states: `v' = (1 - 0) mod 1 = 0`, so the
V-flip wraps `v = 0` back to the top row. -/
theorem c6_counterexample_seam :
    sample demoTexture 0 0 ≠
      demoTexture.data ((demoTexture.height - 1) * demoTexture.width + 0) := by
  norm_num [sample, demoTexture, remEuclid]

/-- C6 (amended): for every texture with positive dimensions,
`sample(1.5, 0) = sample(0.5, 0)` (repeat wrap in `u`), and
`sample(0, 0) = pixels[0]`, the first pixel of the **top** row, because
`v' = (1 - 0) mod 1 = 0`. -/
theorem c6_sample_wrap_and_seam (tex : Texture)
    (hw : 0 < tex.width) (hh : 0 < tex.height) :
    sample tex (3 / 2) 0 = sample tex (1 / 2) 0 ∧
    sample tex 0 0 = tex.data 0 := by
  constructor
  · have h : remEuclid (3 / 2) 1 = remEuclid (1 / 2) 1 := by
      norm_num [remEuclid]
    simp only [sample, h]
  · have h0 : remEuclid 0 1 = 0 := by norm_num [remEuclid]
    have h1 : remEuclid 1 1 = 0 := by norm_num [remEuclid]
    simp [sample, h0, h1]

/-- C6 witness: the amended statement evaluated on the 2×2 fixture. -/
theorem c6_sample_wrap_and_seam_witness :
    sample demoTexture (3 / 2) 0 = sample demoTexture (1 / 2) 0 ∧
    sample demoTexture 0 0 = demoTexture.data 0 :=
  c6_sample_wrap_and_seam demoTexture (by norm_num [demoTexture])
    (by norm_num [demoTexture])

/-- OBJ fixture: one model with a single vertex but face indices `0,1,2`. -/
def demoObjModels : List TobjModel := [⟨"m", [0, 0, 0], [], [], [0, 1, 2]⟩]

/-- Mesh produced by loading the fixture. -/
def demoLoadedMesh : Mesh := ⟨"m", [⟨⟨0, 0, 0⟩, ⟨0, 0, 0⟩, ⟨0, 0⟩⟩], [⟨0, 1, 2⟩]⟩

/-- C7: evaluation of the code at a failing input.  Loading an OBJ model
with one vertex and face indices `(0, 1, 2)` succeeds: `load_all_from_obj`
only checks divisibility of the index count by 3 and never compares indices
against the vertex count, so a mesh whose face index `2` is out of range for
its 1-element vertex array is returned to the caller instead of a load-time
error. -/
theorem c7_load_accepts_out_of_range_indices :
    load_all_from_obj demoObjModels = .ok [demoLoadedMesh] ∧
    demoLoadedMesh.vertices.length = 1 ∧
    (demoLoadedMesh.faces.getD 0 ⟨0, 0, 0⟩).c = 2 := by
  refine ⟨?_, rfl, rfl⟩
  rfl

/-- Sequence of `set_pixel_with_depth` calls targeting one pixel. -/
def applyWrites (fb : FrameBuffer) (x y : ℤ) (ws : List (ℚ × ℕ)) : FrameBuffer :=
  ws.foldl (fun b p => set_pixel_with_depth b x y p.1 p.2) fb

lemma set_pixel_with_depth_skip (fb : FrameBuffer) (x y : ℤ) (d : ℚ) (c : ℕ)
    (h : ¬ (0 ≤ x ∧ x < fb.width ∧ 0 ≤ y ∧ y < fb.height) ∨ d ≤ depthAt fb x y) :
    set_pixel_with_depth fb x y d c = fb := by
  rcases h with h | h
  · simp [set_pixel_with_depth, h]
  · simp only [set_pixel_with_depth]
    split_ifs with h1 h2
    · exact absurd h2 (not_lt.mpr h)
    · rfl
    · rfl

lemma set_pixel_with_depth_dims (fb : FrameBuffer) (x y : ℤ) (d : ℚ) (c : ℕ) :
    (set_pixel_with_depth fb x y d c).width = fb.width ∧
    (set_pixel_with_depth fb x y d c).height = fb.height := by
  simp only [set_pixel_with_depth]
  split_ifs <;> exact ⟨rfl, rfl⟩

lemma set_pixel_with_depth_hit (fb : FrameBuffer) (x y : ℤ) (d : ℚ) (c : ℕ)
    (hb : 0 ≤ x ∧ x < fb.width ∧ 0 ≤ y ∧ y < fb.height)
    (hd : depthAt fb x y < d) :
    depthAt (set_pixel_with_depth fb x y d c) x y = d ∧
    colorAt (set_pixel_with_depth fb x y d c) x y = c := by
  simp only [set_pixel_with_depth, depthAt, colorAt] at hd ⊢
  rw [if_pos hb, if_pos hd]
  simp

lemma set_pixel_with_depth_depth_cases (fb : FrameBuffer) (x y : ℤ) (d : ℚ) (c : ℕ) :
    depthAt (set_pixel_with_depth fb x y d c) x y = d ∨
    depthAt (set_pixel_with_depth fb x y d c) x y = depthAt fb x y := by
  simp only [set_pixel_with_depth, depthAt]
  split_ifs <;> simp

lemma applyWrites_all_le (ws : List (ℚ × ℕ)) (x y : ℤ) :
    ∀ fb : FrameBuffer, (∀ p ∈ ws, p.1 ≤ depthAt fb x y) →
      applyWrites fb x y ws = fb := by
  induction ws with
  | nil => intro fb _; rfl
  | cons p rest ih =>
    intro fb hle
    have hskip : set_pixel_with_depth fb x y p.1 p.2 = fb :=
      set_pixel_with_depth_skip fb x y p.1 p.2 (Or.inr (hle p (by simp)))
    have : applyWrites fb x y (p :: rest) =
        applyWrites (set_pixel_with_depth fb x y p.1 p.2) x y rest := rfl
    rw [this, hskip]
    exact ih fb (fun q hq => hle q (by simp [hq]))

lemma applyWrites_max (ws : List (ℚ × ℕ)) (x y : ℤ) (dm : ℚ) (cm : ℕ) :
    ∀ fb : FrameBuffer,
      (0 ≤ x ∧ x < fb.width ∧ 0 ≤ y ∧ y < fb.height) →
      (dm, cm) ∈ ws → (∀ p ∈ ws, p.1 ≤ dm) → (ws.map Prod.fst).Nodup →
      depthAt fb x y < dm →
      depthAt (applyWrites fb x y ws) x y = dm ∧
      colorAt (applyWrites fb x y ws) x y = cm := by
  induction ws with
  | nil => intro fb _ hmem; exact absurd hmem (List.not_mem_nil _)
  | cons p rest ih =>
    intro fb hb hmem hle hnd hlt
    have hstep : applyWrites fb x y (p :: rest) =
        applyWrites (set_pixel_with_depth fb x y p.1 p.2) x y rest := rfl
    by_cases hp : p = (dm, cm)
    · have hd : p.1 = dm := by rw [hp]
      have hc : p.2 = cm := by rw [hp]
      have hlt2 : depthAt fb x y < p.1 := by rw [hd]; exact hlt
      have hhit := set_pixel_with_depth_hit fb x y p.1 p.2 hb hlt2
      have hrest : ∀ q ∈ rest, q.1 ≤
          depthAt (set_pixel_with_depth fb x y p.1 p.2) x y := by
        intro q hq
        rw [hhit.1, hd]
        exact hle q (by simp [hq])
      rw [hstep, applyWrites_all_le rest x y _ hrest]
      rw [← hd, ← hc]
      exact hhit
    · have hmem' : (dm, cm) ∈ rest := by
        rcases List.mem_cons.mp hmem with h | h
        · exact absurd h.symm hp
        · exact h
      have hdlt : p.1 < dm := by
        rcases lt_or_eq_of_le (hle p (by simp)) with h | h
        · exact h
        · exfalso
          have hfst : dm ∈ rest.map Prod.fst := List.mem_map_of_mem _ hmem'
          have : p.1 ∉ rest.map Prod.fst := (List.nodup_cons.mp hnd).1
          rw [h] at this
          exact this hfst
      have hdims := set_pixel_with_depth_dims fb x y p.1 p.2
      have hb' : 0 ≤ x ∧ x < (set_pixel_with_depth fb x y p.1 p.2).width ∧
          0 ≤ y ∧ y < (set_pixel_with_depth fb x y p.1 p.2).height := by
        rw [hdims.1, hdims.2]
        exact hb
      have hlt' : depthAt (set_pixel_with_depth fb x y p.1 p.2) x y < dm := by
        rcases set_pixel_with_depth_depth_cases fb x y p.1 p.2 with h | h
        · rw [h]; exact hdlt
        · rw [h]; exact hlt
      rw [hstep]
      exact ih _ hb' hmem' (fun q hq => hle q (by simp [hq]))
        (List.nodup_cons.mp hnd).2 hlt'

/-- C4: starting from a cleared depth buffer, any finite Nodup-depth positive
write sequence to one in-bounds pixel leaves the color paired with the
maximum depth, and that depth; and a `set_pixel_with_depth` call that is out
of range or does not strictly exceed the stored depth changes nothing. -/
theorem c4_depth_test_monotonicity :
    (∀ (fb0 : FrameBuffer) (x y : ℤ) (ws : List (ℚ × ℕ)) (dm : ℚ) (cm : ℕ),
      0 ≤ x → x < fb0.width → 0 ≤ y → y < fb0.height →
      (dm, cm) ∈ ws → (∀ p ∈ ws, p.1 ≤ dm) → (∀ p ∈ ws, 0 < p.1) →
      (ws.map Prod.fst).Nodup →
      colorAt (applyWrites (clear_depth fb0) x y ws) x y = cm ∧
      depthAt (applyWrites (clear_depth fb0) x y ws) x y = dm) ∧
    (∀ (fb : FrameBuffer) (x y : ℤ) (d : ℚ) (c : ℕ),
      (¬ (0 ≤ x ∧ x < fb.width ∧ 0 ≤ y ∧ y < fb.height) ∨ d ≤ depthAt fb x y) →
      set_pixel_with_depth fb x y d c = fb) := by
  constructor
  · intro fb0 x y ws dm cm hx1 hx2 hy1 hy2 hmem hle hpos hnd
    have hb : 0 ≤ x ∧ x < (clear_depth fb0).width ∧ 0 ≤ y ∧
        y < (clear_depth fb0).height := ⟨hx1, hx2, hy1, hy2⟩
    have hlt : depthAt (clear_depth fb0) x y < dm := by
      have : depthAt (clear_depth fb0) x y = 0 := rfl
      rw [this]
      exact hpos (dm, cm) hmem
    have h := applyWrites_max ws x y dm cm (clear_depth fb0) hb hmem hle hnd hlt
    exact ⟨h.2, h.1⟩
  · exact set_pixel_with_depth_skip

/-- Framebuffer fixture for the C4 witness: 4×4, depth slab initially 7. -/
def demoFb : FrameBuffer := ⟨4, 4, fun _ => 0, fun _ => 7⟩

/-- C4 witness: three writes with depths 1/2, 3, 2 to pixel (1,1) of a
cleared buffer leave color 30 and depth 3 (the maximum). -/
theorem c4_depth_test_monotonicity_witness :
    colorAt (applyWrites (clear_depth demoFb) 1 1 [(1/2, 10), (3, 30), (2, 20)]) 1 1 = 30 ∧
    depthAt (applyWrites (clear_depth demoFb) 1 1 [(1/2, 10), (3, 30), (2, 20)]) 1 1 = 3 :=
  c4_depth_test_monotonicity.1 demoFb 1 1 [(1/2, 10), (3, 30), (2, 20)] 3 30
    (by norm_num) (by norm_num [demoFb]) (by norm_num) (by norm_num [demoFb])
    (by simp)
    (by intro p hp; fin_cases hp <;> norm_num)
    (by intro p hp; fin_cases hp <;> norm_num)
    (by norm_num)

lemma lookupName_mem {l : List (String × ℕ)} {n : String} {i : ℕ}
    (h : lookupName l n = some i) : (n, i) ∈ l := by
  induction l with
  | nil => simp [lookupName] at h
  | cons p rest ih =>
    simp only [lookupName] at h
    by_cases hp : p.1 = n
    · rw [if_pos hp] at h
      have : p = (n, i) := by
        cases p
        simp_all
      simp [this]
    · rw [if_neg hp] at h
      exact List.mem_cons_of_mem _ (ih h)

lemma lookupName_eraseKey_ne (l : List (String × ℕ)) (n n' : String)
    (h : n' ≠ n) : lookupName (eraseKey l n) n' = lookupName l n' := by
  induction l with
  | nil => rfl
  | cons p rest ih =>
    simp only [eraseKey, lookupName]
    by_cases hp : p.1 = n
    · rw [if_pos hp]
      have hp' : p.1 ≠ n' := by rw [hp]; exact fun he => h he.symm
      simp only [lookupName, if_neg hp']
    · rw [if_neg hp]
      simp only [lookupName]
      by_cases hn : p.1 = n'
      · rw [if_pos hn, if_pos hn]
      · rw [if_neg hn, if_neg hn, ih]

lemma lookupName_adjust (l : List (String × ℕ)) (index : ℕ) (n : String) :
    lookupName (l.map (fun p => if index < p.2 then (p.1, p.2 - 1) else p)) n =
      (lookupName l n).map (fun j => if index < j then j - 1 else j) := by
  induction l with
  | nil => rfl
  | cons p rest ih =>
    by_cases hc : index < p.2
    · by_cases hn : p.1 = n
      · simp [lookupName, hc, hn]
      · simp [lookupName, hc, hn, ih]
    · by_cases hn : p.1 = n
      · simp [lookupName, hc, hn]
      · simp [lookupName, hc, hn, ih]

lemma eraseIdx_getElem?_lt (l : List α) (i j : ℕ) (h : j < i) :
    (l.eraseIdx i)[j]? = l[j]? := by
  induction l generalizing i j with
  | nil => simp [List.eraseIdx]
  | cons a t ih =>
    cases i with
    | zero => omega
    | succ i' =>
      cases j with
      | zero => simp [List.eraseIdx]
      | succ j' =>
        simp only [List.eraseIdx, List.getElem?_cons_succ]
        exact ih i' j' (by omega)

lemma eraseIdx_getElem?_gt (l : List α) (i j : ℕ) (h : i < j) :
    (l.eraseIdx i)[j - 1]? = l[j]? := by
  induction l generalizing i j with
  | nil => simp [List.eraseIdx]
  | cons a t ih =>
    cases i with
    | zero =>
      cases j with
      | zero => omega
      | succ j' => simp [List.eraseIdx]
    | succ i' =>
      cases j with
      | zero => omega
      | succ j' =>
        have hj : j' ≥ 1 := by omega
        simp only [List.eraseIdx, Nat.succ_sub_one]
        obtain ⟨j'', rfl⟩ : ∃ j'', j' = j'' + 1 := ⟨j' - 1, by omega⟩
        simp only [List.getElem?_cons_succ]
        have := ih i' (j'' + 1) (by omega)
        simpa using this

/-- C9: with injective in-range indices (the engine map invariant),
`remove_model` on a present name returns exactly what `model` resolved for
that name (a `some`), and every other name still resolves to the same model
afterwards; on an absent name it returns `None` and leaves the engine
unchanged. -/
theorem c9_remove_model (α : Type) (e : Engine α) (name n' : String)
    (hidx : (e.modelNames.map Prod.snd).Nodup)
    (hlt : ∀ p ∈ e.modelNames, p.2 < e.models.length) :
    (∀ i, lookupName e.modelNames name = some i →
      (remove_model e name).1 = modelByName e name ∧
      (modelByName e name).isSome = true ∧
      (n' ≠ name → modelByName (remove_model e name).2 n' = modelByName e n')) ∧
    (lookupName e.modelNames name = none → remove_model e name = (none, e)) := by
  constructor
  · intro i hlook
    have hmemi : (name, i) ∈ e.modelNames := lookupName_mem hlook
    have hilen : i < e.models.length := hlt _ hmemi
    refine ⟨?_, ?_, ?_⟩
    · simp [remove_model, modelByName, hlook]
    · have hm : modelByName e name = e.models[i]? := by
        simp [modelByName, hlook]
      rw [hm, List.getElem?_eq_getElem hilen]
      rfl
    · intro hne
      simp only [remove_model, hlook, modelByName]
      cases hl' : lookupName e.modelNames n' with
      | none =>
        have : lookupName
            ((eraseKey e.modelNames name).map
              (fun p => if i < p.2 then (p.1, p.2 - 1) else p)) n' = none := by
          rw [lookupName_adjust, lookupName_eraseKey_ne _ _ _ hne, hl']
          rfl
        simp [this]
      | some j =>
        have hmemj : (n', j) ∈ e.modelNames := lookupName_mem hl'
        have hji : j ≠ i := by
          intro hji
          have hinj := List.inj_on_of_nodup_map hidx
          have : (n', j) = (name, i) := hinj hmemj hmemi (by simp [hji])
          exact hne (congrArg Prod.fst this)
        have hlook' : lookupName
            ((eraseKey e.modelNames name).map
              (fun p => if i < p.2 then (p.1, p.2 - 1) else p)) n' =
            some (if i < j then j - 1 else j) := by
          rw [lookupName_adjust, lookupName_eraseKey_ne _ _ _ hne, hl']
          rfl
        rw [hlook']
        show (e.models.eraseIdx i)[if i < j then j - 1 else j]? = e.models[j]?
        by_cases hij : i < j
        · rw [if_pos hij]
          exact eraseIdx_getElem?_gt e.models i j hij
        · rw [if_neg hij]
          exact eraseIdx_getElem?_lt e.models i j (by omega)
  · intro hnone
    simp [remove_model, hnone]

/-- Engine fixture for the C9 witness. -/
def demoEngine : Engine ℕ := ⟨[10, 20, 30], [("a", 0), ("b", 1), ("c", 2)]⟩

/-- C9 witness: removing "b" from the fixture returns model 20 and leaves
"c" resolving to 30 as before. -/
theorem c9_remove_model_witness :
    (remove_model demoEngine "b").1 = some 20 ∧
    modelByName (remove_model demoEngine "b").2 "c" = some 30 ∧
    modelByName demoEngine "c" = some 30 := by
  have h := c9_remove_model ℕ demoEngine "b" "c" (by decide)
    (by intro p hp; fin_cases hp <;> decide)
  have h1 := (h.1 1 rfl).1
  have h3 := (h.1 1 rfl).2.2 (by decide)
  refine ⟨h1.trans rfl, h3.trans rfl, rfl⟩

lemma foldl_append_eq_flatten {β : Type} (f : ℕ → List β) (l : List ℕ) :
    ∀ acc : List β, l.foldl (fun out i => out ++ f i) acc = acc ++ (l.map f).flatten := by
  induction l with
  | nil => intro acc; simp
  | cons i rest ih =>
    intro acc
    simp only [List.foldl_cons, List.map_cons, List.flatten_cons, ih,
      List.append_assoc]

lemma clipPlanesLoop_small (planes : List ClipPlane) (poly : List ClipSpaceVertex)
    (h : poly.length < 3) :
    planes.foldl
      (fun result plane =>
        if result.length < 3 then result else clip_against_plane result plane)
      poly = poly := by
  induction planes with
  | nil => rfl
  | cons pl rest ih =>
    simp only [List.foldl_cons, if_pos h]
    exact ih

lemma clipPlanesLoop_eq_foldl (planes : List ClipPlane) :
    ∀ poly : List ClipSpaceVertex,
      clipPlanesLoop planes poly =
        planes.foldl
          (fun result plane =>
            if result.length < 3 then result else clip_against_plane result plane)
          poly := by
  induction planes with
  | nil => intro poly; rfl
  | cons pl rest ih =>
    intro poly
    simp only [clipPlanesLoop, List.foldl_cons]
    by_cases h : poly.length < 3
    · rw [if_pos h, if_pos h, clipPlanesLoop_small rest poly h]
    · rw [if_neg h, if_neg h, ih]

/-- C3 (amended): `clip_against_plane` emits, for each directed edge of the
vertex ring, exactly: current when in→in; **current followed by** the
intersection at `t = d1/(d1-d2)` (all attributes lerped) when in→out; the
intersection when out→in; nothing when out→out — and `clip_polygon` applies
the six planes in the order Left, Right, Bottom, Top, Near, Far,
short-circuiting once the running result has fewer than 3 vertices. -/
theorem c3_clip_emission_and_plane_order :
    (∀ (vertices : List ClipSpaceVertex) (plane : ClipPlane),
      clip_against_plane vertices plane = specSHClip vertices plane) ∧
    (∀ polygon : List ClipSpaceVertex,
      clip_polygon polygon = specClipSequence polygon) := by
  constructor
  · intro vertices plane
    unfold clip_against_plane specSHClip
    by_cases h : vertices.length < 3
    · rw [if_pos h, if_pos h]
    · rw [if_neg h, if_neg h]
      rw [foldl_append_eq_flatten
        (fun i => edgeEmit plane (vertices.getD i default)
          (vertices.getD ((i + 1) % vertices.length) default))
        (List.range vertices.length) []]
      simp
  · intro polygon
    exact clipPlanesLoop_eq_foldl clipperPlanes polygon

/-- Clip-plane fixture: a triangle with two vertices inside and one outside
the near plane. -/
def demoClipPoly : List ClipSpaceVertex :=
  [⟨⟨0, 0, 1, 1⟩, ⟨0, 0⟩, 0⟩, ⟨⟨1, 0, 1, 1⟩, ⟨0, 0⟩, 0⟩, ⟨⟨0, 0, -3, 1⟩, ⟨0, 0⟩, 0⟩]

/-- C3 counterexample: on a triangle with vertices in, in, out relative to
the near plane, the code emits 4 vertices (the in→out edge pushes the
current vertex *and* the intersection) while the claim's emission table
(in→out emits only the intersection) yields 3: the claim as stated drops
every inside vertex whose successor is outside. -/
theorem c3_counterexample_in_out_emission :
    (clip_against_plane demoClipPoly .near).length = 4 ∧
    (claimTableClip demoClipPoly .near).length = 3 := by
  have h1 : signed_distance ClipPlane.near (demoClipPoly.getD 0 default) = 2 := by
    norm_num [signed_distance, demoClipPoly]
  have h2 : signed_distance ClipPlane.near (demoClipPoly.getD 1 default) = 2 := by
    norm_num [signed_distance, demoClipPoly]
  have h3 : signed_distance ClipPlane.near (demoClipPoly.getD 2 default) = -2 := by
    norm_num [signed_distance, demoClipPoly]
  constructor
  · norm_num [clip_against_plane, demoClipPoly, edgeEmit, signed_distance,
      List.range_succ]
  · norm_num [claimTableClip, demoClipPoly, claimEdgeEmit, signed_distance,
      List.range_succ]

/-- Clip-plane fixture: a triangle entirely inside the left plane. -/
def demoInsidePoly : List ClipSpaceVertex :=
  [⟨⟨0, 0, 0, 1⟩, ⟨0, 0⟩, 0⟩, ⟨⟨1, 1, 0, 2⟩, ⟨0, 0⟩, 0⟩, ⟨⟨0, 1, 1, 1⟩, ⟨0, 0⟩, 0⟩]

lemma flatten_map_singleton {β γ : Type} (g : β → γ) (xs : List β) :
    ((xs.map (fun i => [g i])).flatten) = xs.map g := by
  induction xs with
  | nil => rfl
  | cons a t ih => simp [ih]

/-- C10: clipping a polygon of at least 3 vertices against a plane to which
every vertex has nonnegative signed distance returns exactly the input
vertex sequence — positions, texcoords and packed colors unchanged. -/
theorem c10_clip_identity_on_inside (vertices : List ClipSpaceVertex)
    (plane : ClipPlane) (h3 : 3 ≤ vertices.length)
    (hin : ∀ v ∈ vertices, 0 ≤ signed_distance plane v) :
    clip_against_plane vertices plane = vertices := by
  unfold clip_against_plane
  rw [if_neg (by omega)]
  rw [foldl_append_eq_flatten
    (fun i => edgeEmit plane (vertices.getD i default)
      (vertices.getD ((i + 1) % vertices.length) default))
    (List.range vertices.length) []]
  have hlen : 0 < vertices.length := by omega
  have hemit : ∀ i ∈ List.range vertices.length,
      edgeEmit plane (vertices.getD i default)
        (vertices.getD ((i + 1) % vertices.length) default) =
      [vertices.getD i default] := by
    intro i hi
    have hi' : i < vertices.length := List.mem_range.mp hi
    have hmem1 : vertices.getD i default ∈ vertices := by
      rw [List.getD_eq_getElem vertices default hi']
      exact List.getElem_mem hi'
    have hi2 : (i + 1) % vertices.length < vertices.length := Nat.mod_lt _ hlen
    have hmem2 : vertices.getD ((i + 1) % vertices.length) default ∈ vertices := by
      rw [List.getD_eq_getElem vertices default hi2]
      exact List.getElem_mem hi2
    unfold edgeEmit
    rw [if_pos (hin _ hmem1)]
    rw [if_neg (by simpa using hin _ hmem2)]
  rw [List.map_congr_left hemit, flatten_map_singleton]
  have : (List.range vertices.length).map (fun i => vertices.getD i default) =
      vertices := by
    apply List.ext_getElem
    · simp
    · intro n h1 h2
      simp only [List.getElem_map, List.getElem_range]
      exact List.getD_eq_getElem vertices default h2
  rw [this]
  simp

/-- C10 witness: the identity evaluated on the all-inside fixture. -/
theorem c10_clip_identity_witness :
    clip_against_plane demoInsidePoly .left = demoInsidePoly :=
  c10_clip_identity_on_inside demoInsidePoly .left (by norm_num [demoInsidePoly])
    (by intro v hv; fin_cases hv <;> norm_num [signed_distance, demoInsidePoly])

lemma edge_function_swap (a b p : Vec3) :
    edge_function b a p = -edge_function a b p := by
  unfold edge_function
  ring

lemma is_top_left_swap (a b : Vec3) (h : a.x ≠ b.x ∨ a.y ≠ b.y) :
    is_top_left a b ↔ ¬ is_top_left b a := by
  unfold is_top_left
  rcases lt_trichotomy (b.y - a.y) 0 with hy | hy | hy
  · constructor
    · rintro _ (⟨h1, _⟩ | h1) <;> linarith
    · intro _
      exact Or.inr hy
  · have hx : a.x ≠ b.x := by
      rcases h with hx | hyy
      · exact hx
      · exact absurd (by linarith : a.y = b.y) hyy
    constructor
    · rintro (⟨_, hdx⟩ | h1)
      · rintro (⟨_, hdx'⟩ | h1') <;> linarith
      · linarith
    · intro hn
      rcases lt_trichotomy (b.x - a.x) 0 with hdx | hdx | hdx
      · exact Or.inl ⟨by linarith, hdx⟩
      · exact absurd (by linarith : a.x = b.x) hx
      · exact absurd (Or.inl ⟨by linarith, by linarith⟩) hn
  · constructor
    · rintro (⟨h1, _⟩ | h1) <;> linarith
    · intro hn
      exact absurd (Or.inr (by linarith)) hn

lemma insideBiased_sharedEdge_pos (u v c p : Vec3)
    (hA : 0 < edge_function u v c) (hI : insideBiased u v c p) :
    0 ≤ edge_function u v p + biasOf u v := by
  simp only [insideBiased] at hI
  rw [if_pos hA] at hI
  exact hI.2.2

lemma insideBiased_sharedEdge_neg (u v c p : Vec3)
    (hA : edge_function u v c < 0) (hI : insideBiased u v c p) :
    edge_function u v p - biasOf u v ≤ 0 := by
  simp only [insideBiased] at hI
  rw [if_neg (not_lt.mpr hA.le)] at hI
  exact hI.2.2

/-- C5 (amended): for two non-degenerate screen-space triangles sharing
exactly one edge traversed in opposite directions and with signed areas of
the same sign (third vertices on opposite sides of the shared edge, i.e.
consistent winding), edge-function rasterization covers no pixel in both
passes; and a pixel whose center lies exactly on the shared edge is covered
by at most one triangle — never by the one whose traversal of the shared
edge is not a top-left edge. -/
theorem c5_top_left_partition (u v c d : Vec3) (w h x y : ℤ)
    (hsign : (0 < edge_function u v c ∧ 0 < edge_function v u d) ∨
      (edge_function u v c < 0 ∧ edge_function v u d < 0)) :
    ¬ (coveredBy u v c w h x y ∧ coveredBy v u d w h x y) ∧
    (edge_function u v (pixelCenter x y) = 0 →
      (¬ is_top_left u v → ¬ coveredBy u v c w h x y) ∧
      (¬ is_top_left v u → ¬ coveredBy v u d w h x y)) := by
  have hne : u.x ≠ v.x ∨ u.y ≠ v.y := by
    by_contra hc2
    push_neg at hc2
    have h0 : edge_function u v c = 0 := by
      unfold edge_function
      rw [← hc2.1, ← hc2.2]
      ring
    rcases hsign with ⟨h1, _⟩ | ⟨h1, _⟩ <;> rw [h0] at h1 <;> exact lt_irrefl 0 h1
  have hxor := is_top_left_swap u v hne
  have hswap : edge_function v u (pixelCenter x y) =
      -edge_function u v (pixelCenter x y) := edge_function_swap u v _
  constructor
  · rintro ⟨hc1, hc2⟩
    obtain ⟨_, _, _, _, _, hI1⟩ := hc1
    obtain ⟨_, _, _, _, _, hI2⟩ := hc2
    rcases hsign with ⟨ha1, ha2⟩ | ⟨ha1, ha2⟩
    · have h1 := insideBiased_sharedEdge_pos u v c _ ha1 hI1
      have h2 := insideBiased_sharedEdge_pos v u d _ ha2 hI2
      rw [hswap] at h2
      by_cases htl : is_top_left u v
      · have htl2 : ¬ is_top_left v u := hxor.mp htl
        unfold biasOf at h1 h2
        rw [if_pos htl] at h1
        rw [if_neg htl2] at h2
        linarith
      · have htl2 : is_top_left v u := by
          by_contra hh
          exact htl (hxor.mpr hh)
        unfold biasOf at h1 h2
        rw [if_neg htl] at h1
        rw [if_pos htl2] at h2
        linarith
    · have h1 := insideBiased_sharedEdge_neg u v c _ ha1 hI1
      have h2 := insideBiased_sharedEdge_neg v u d _ ha2 hI2
      rw [hswap] at h2
      by_cases htl : is_top_left u v
      · have htl2 : ¬ is_top_left v u := hxor.mp htl
        unfold biasOf at h1 h2
        rw [if_pos htl] at h1
        rw [if_neg htl2] at h2
        linarith
      · have htl2 : is_top_left v u := by
          by_contra hh
          exact htl (hxor.mpr hh)
        unfold biasOf at h1 h2
        rw [if_neg htl] at h1
        rw [if_pos htl2] at h2
        linarith
  · intro h0
    constructor
    · intro hntl hcov
      obtain ⟨_, _, _, _, _, hI⟩ := hcov
      by_cases hA : 0 < edge_function u v c
      · have h1 := insideBiased_sharedEdge_pos u v c _ hA hI
        unfold biasOf at h1
        rw [if_neg hntl, h0] at h1
        linarith
      · have hA' : edge_function u v c < 0 := by
          rcases hsign with ⟨ha1, _⟩ | ⟨ha1, _⟩
          · exact absurd ha1 hA
          · exact ha1
        have h1 := insideBiased_sharedEdge_neg u v c _ hA' hI
        unfold biasOf at h1
        rw [if_neg hntl, h0] at h1
        linarith
    · intro hntl hcov
      obtain ⟨_, _, _, _, _, hI⟩ := hcov
      have h0' : edge_function v u (pixelCenter x y) = 0 := by
        rw [hswap, h0]
        ring
      by_cases hA : 0 < edge_function v u d
      · have h1 := insideBiased_sharedEdge_pos v u d _ hA hI
        unfold biasOf at h1
        rw [if_neg hntl, h0'] at h1
        linarith
      · have hA' : edge_function v u d < 0 := by
          rcases hsign with ⟨_, ha2⟩ | ⟨_, ha2⟩
          · exact absurd ha2 hA
          · exact ha2
        have h1 := insideBiased_sharedEdge_neg v u d _ hA' hI
        unfold biasOf at h1
        rw [if_neg hntl, h0'] at h1
        linarith

/-- C5 counterexample: the claim as stated fails in both directions.
Exclusivity: the triangles `(0,0),(40,0),(0,40)` and `(40,0),(0,0),(40,40)`
share the edge `(0,0)–(40,0)` traversed in opposite directions and are
non-degenerate, yet (having opposite winding, with the third vertices on the
same side) both cover pixel `(20, 5)`.  Exactly-one on-edge coverage: the
same-winding sub-pixel triangles `(0,½),(1,½),(½,¼)` and `(1,½),(0,½),(½,¾)`
leave the pixel `(0,0)` — whose center `(½,½)` lies exactly on the shared
edge and inside both closed triangles — covered by neither, because the
`-1` bias of a non-top-left edge exceeds the sub-pixel edge-function
magnitudes. -/
theorem c5_counterexample_partition :
    (0 < edge_function ⟨0, 0, 1⟩ ⟨40, 0, 1⟩ ⟨0, 40, 1⟩ ∧
     edge_function ⟨40, 0, 1⟩ ⟨0, 0, 1⟩ ⟨40, 40, 1⟩ < 0 ∧
     coveredBy ⟨0, 0, 1⟩ ⟨40, 0, 1⟩ ⟨0, 40, 1⟩ 64 64 20 5 ∧
     coveredBy ⟨40, 0, 1⟩ ⟨0, 0, 1⟩ ⟨40, 40, 1⟩ 64 64 20 5) ∧
    (edge_function ⟨0, 1/2, 1⟩ ⟨1, 1/2, 1⟩ (pixelCenter 0 0) = 0 ∧
     edge_function ⟨0, 1/2, 1⟩ ⟨1, 1/2, 1⟩ ⟨1/2, 1/4, 1⟩ < 0 ∧
     edge_function ⟨1, 1/2, 1⟩ ⟨0, 1/2, 1⟩ ⟨1/2, 3/4, 1⟩ < 0 ∧
     edge_function ⟨1, 1/2, 1⟩ ⟨1/2, 1/4, 1⟩ (pixelCenter 0 0) ≤ 0 ∧
     edge_function ⟨1/2, 1/4, 1⟩ ⟨0, 1/2, 1⟩ (pixelCenter 0 0) ≤ 0 ∧
     edge_function ⟨0, 1/2, 1⟩ ⟨1/2, 3/4, 1⟩ (pixelCenter 0 0) ≤ 0 ∧
     edge_function ⟨1/2, 3/4, 1⟩ ⟨1, 1/2, 1⟩ (pixelCenter 0 0) ≤ 0 ∧
     ¬ coveredBy ⟨0, 1/2, 1⟩ ⟨1, 1/2, 1⟩ ⟨1/2, 1/4, 1⟩ 8 8 0 0 ∧
     ¬ coveredBy ⟨1, 1/2, 1⟩ ⟨0, 1/2, 1⟩ ⟨1/2, 3/4, 1⟩ 8 8 0 0) := by
  constructor
  · refine ⟨by norm_num [edge_function], by norm_num [edge_function], ?_, ?_⟩ <;>
      norm_num [coveredBy, insideBiased, biasOf, is_top_left, edge_function,
        pixelCenter, epsF]
  · refine ⟨by norm_num [edge_function, pixelCenter],
      by norm_num [edge_function], by norm_num [edge_function],
      by norm_num [edge_function, pixelCenter],
      by norm_num [edge_function, pixelCenter],
      by norm_num [edge_function, pixelCenter],
      by norm_num [edge_function, pixelCenter], ?_, ?_⟩ <;>
      norm_num [coveredBy, insideBiased, biasOf, is_top_left, edge_function,
        pixelCenter, epsF]

/-- C5 witness: the amended exclusivity applied to a consistent-winding
shared-edge pair at pixel `(20, 5)`. -/
theorem c5_top_left_partition_witness :
    ¬ (coveredBy ⟨0, 0, 1⟩ ⟨40, 0, 1⟩ ⟨0, 40, 1⟩ 64 64 20 5 ∧
       coveredBy ⟨40, 0, 1⟩ ⟨0, 0, 1⟩ ⟨40, -40, 1⟩ 64 64 20 5) :=
  (c5_top_left_partition ⟨0, 0, 1⟩ ⟨40, 0, 1⟩ ⟨0, 40, 1⟩ ⟨40, -40, 1⟩ 64 64 20 5
    (Or.inl ⟨by norm_num [edge_function], by norm_num [edge_function]⟩)).1

/-- Triangle fixture for C1: flat-bottom Gouraud triangle with all vertex
colors `0xFFFF0000` and clip-space `w = 1` stored in every `z` slot. -/
def demoTriangle : Triangle :=
  ⟨⟨2, 0, 1⟩, ⟨0, 4, 1⟩, ⟨4, 4, 1⟩, 4294901760, 4294901760, 4294901760, .gouraud⟩

/-- Framebuffer fixture for C1: 8×8, color cleared to 0, every stored depth
already `100` (far closer than the triangle's interpolated `1/w = 1`). -/
def demoFb1 : FrameBuffer := ⟨8, 8, fun _ => 0, fun _ => 100⟩

lemma ceil_q_half : (⌈(1 : ℚ) / 2⌉ = 1) := by
  rw [Int.ceil_eq_iff] <;> norm_num

lemma ceil_q_3half : (⌈(3 : ℚ) / 2⌉ = 2) := by
  rw [Int.ceil_eq_iff] <;> norm_num

/-- C1: evaluation of the code at a failing input.  The scanline
`fill_triangle` covers pixel `(2,2)` of the fixture triangle and overwrites
its color even though the stored depth `100` is strictly closer than the
triangle's `1/w = 1`, and it leaves the depth slab untouched: the scanline
pass writes through `set_pixel` with no depth test, never reads the
clip-space `w` stored in `z`, and invokes no shader — unlike the
edge-function rasterizer, which writes through `set_pixel_with_depth` with
the interpolated `1/w`. -/
theorem c1_scanline_skips_depth_test :
    colorAt (scanline_fill_triangle demoTriangle demoFb1 0) 2 2 = 4294901760 ∧
    depthAt (scanline_fill_triangle demoTriangle demoFb1 0) 2 2 = 100 ∧
    colorAt demoFb1 2 2 = 0 ∧ depthAt demoFb1 2 2 = 100 := by
  have hunpack : unpack_color 4294901760 = ((1 : ℚ), (0 : ℚ), (0 : ℚ)) := by
    norm_num [unpack_color]
  have hpack : pack_color 1 0 0 1 = 4294901760 := by
    norm_num [pack_color, toByte]
    decide
  have hlerp : ∀ (cc : Rgb) (t : ℚ), lerp_color cc cc t = cc := by
    intro cc t
    obtain ⟨a, b, c⟩ := cc
    simp [lerp_color]
  have hfill : scanline_fill_triangle demoTriangle demoFb1 0 =
      fill_flat_bottom_gouraud ⟨2, 0, 1⟩ ⟨0, 4, 1⟩ ⟨4, 4, 1⟩
        (1, 0, 0) (1, 0, 0) (1, 0, 0) demoFb1 := by
    norm_num [scanline_fill_triangle, demoTriangle, hunpack,
      sort_vertices_with_colors, epsF]
  rw [hfill]
  refine ⟨?_, ?_, rfl, rfl⟩ <;>
    norm_num [fill_flat_bottom_gouraud, demoFb1, hlerp, hpack, set_pixel,
      colorAt, depthAt, intRange, intRangeFuel, epsF, ceil_q_half, ceil_q_3half]

end Rusterize
